import Mathlib

/-!
Shallow embedding of the drop-bin crate (a deferred-destruction arena).

The repository contains two generations of the implementation:

* `src/lib.rs` — the legacy, sequential `Bin`: a `Vec<(ptr, Destructor)>` of
  destructor entries plus a `Vec<Vec<MaybeUninit<u8>>>` of storage buffers.
  It is embedded below as `LibBin`.
* `src/inner.rs` together with `src/concurrent_list.rs`,
  `src/concurrent_slice.rs`, `src/concurrent_vec.rs` — the current arena
  (`Inner`) built on the concurrent containers.  It is embedded below as
  `Inner`, `ConcurrentSlice`, `ConcurrentVec`.  The linked list of storage
  segments (`ConcurrentList<Storage>`) is embedded as a Lean `List` whose
  head is the most recently pushed element, matching `ConcurrentList::push`
  which installs the new node as the head.

All sizes, alignments and addresses are modelled as `Nat`, with `usize`
overflow made explicit through `checkedAdd` / `checkedMul` against
`USIZE_MAX` (a 64-bit target).  Byte buffers are modelled by their address
(`base`), their fixed `capacity` and their current initialised length
(`len`); the payload bytes themselves play no role in any claim, only the
placement arithmetic does.  `Vec::with_capacity c` is modelled as returning
a buffer of capacity exactly `c`.

Rust's ownership semantics are part of the embedding: every operation that
can run a destructor reports the ids of the values whose destructor it
invoked.  A value moved into storage (`ptr::write`) or explicitly forgotten
(`mem::forget`) is not dropped; a value still owned by a function when it
returns (the early-`return` overflow paths, and the zero-sized-type branch
of the legacy `Bin::add`, which never moves `value`) is dropped there.
-/

namespace DropBin

/-- `usize::MAX` on the 64-bit targets the crate is built for. -/
def USIZE_MAX : Nat := 2 ^ 64 - 1

/-- `usize::checked_add`. -/
def checkedAdd (a b : Nat) : Option Nat :=
  if a + b ≤ USIZE_MAX then some (a + b) else none

/-- `usize::checked_mul`. -/
def checkedMul (a b : Nat) : Option Nat :=
  if a * b ≤ USIZE_MAX then some (a * b) else none

/-- `ConcurrentSlice<T>` (src/concurrent_slice.rs): a boxed slice of
`capacity` cells of which the first `elems.length` are initialised, in
reservation order. -/
structure ConcurrentSlice (α : Type) where
  capacity : Nat
  elems : List α
deriving DecidableEq

/-- `ConcurrentSlice::len`: the atomically reserved length. -/
def ConcurrentSlice.len {α : Type} (s : ConcurrentSlice α) : Nat :=
  s.elems.length

/-- `ConcurrentSlice::push` (src/concurrent_slice.rs lines 35-56): the
`fetch_update` refuses to reserve a slot exactly when `len == capacity`,
returning `Err(value)` with the slice untouched; otherwise the value is
written into the freshly reserved slot.  The rejected value is returned in
the first component. -/
def ConcurrentSlice.push {α : Type} (s : ConcurrentSlice α) (x : α) :
    Option α × ConcurrentSlice α :=
  if s.len = s.capacity then (some x, s)
  else (none, { s with elems := s.elems ++ [x] })

/-- `ConcurrentVec<T>` (src/concurrent_vec.rs): a `ConcurrentList` of
`ConcurrentSlice`s, most recently created slice at the head. -/
structure ConcurrentVec (α : Type) where
  slices : List (ConcurrentSlice α)
deriving DecidableEq

/-- `ConcurrentVec::new`. -/
def ConcurrentVec.new {α : Type} : ConcurrentVec α := ⟨[]⟩

/-- `ConcurrentVec::push` (src/concurrent_vec.rs lines 19-34).  The source
loops: try the head slice; on failure (absent or full) create a slice of
capacity `head.capacity().checked_mul(2).unwrap_or(capacity)` (or 4 when no
head exists), link it at the front and retry.  Sequentially the retry lands
in the just-created head slice, which accepts the value whenever its
capacity is nonzero — always the case for vectors grown from `new`, whose
capacities are 4, 8, 16, …  The model unrolls that single retry. -/
def ConcurrentVec.push {α : Type} (v : ConcurrentVec α) (x : α) :
    ConcurrentVec α :=
  match v.slices with
  | [] => ⟨[⟨4, [x]⟩]⟩
  | s :: rest =>
    match s.push x with
    | (none, s') => ⟨s' :: rest⟩
    | (some x', _) =>
      let cap := (checkedMul s.capacity 2).getD s.capacity
      ⟨⟨cap, [x']⟩ :: s :: rest⟩

/-- `ConcurrentVec::into_iter` (src/concurrent_vec.rs lines 43-47) as the
list of values it yields: segments head (most recent) first, and inside
each segment the reservation order reversed (`.rev()`). -/
def ConcurrentVec.intoIter {α : Type} (v : ConcurrentVec α) : List α :=
  (v.slices.map (fun s => s.elems.reverse)).flatten

/-- `ConcurrentVec::len`: the sum of the slices' reserved lengths. -/
def ConcurrentVec.len {α : Type} (v : ConcurrentVec α) : Nat :=
  (v.slices.map (fun s => s.len)).sum

/-- One type-erased destructor entry `(*mut (), Destructor)`: the recorded
location and the ghost identity of the added value (standing for
`ptr::drop_in_place::<T>` of that value). -/
structure Entry where
  location : Nat
  id : Nat
deriving DecidableEq

/-- A storage segment: `Storage` in src/inner.rs (a `TryMutex`-guarded
`Vec<MaybeUninit<u8>>` plus its recorded capacity), and equally one inner
`Vec<MaybeUninit<u8>>` of the legacy `Bin.data`.  `base` is the buffer's
address, `len` its initialised length. -/
structure Storage where
  base : Nat
  capacity : Nat
  len : Nat
deriving DecidableEq

/-- The input of one `add` call: the layout of `T`, the address the
allocator would hand out were this call to allocate a fresh buffer, and the
ghost identity of the value. -/
structure Req where
  size : Nat
  align : Nat
  base : Nat
  id : Nat
deriving DecidableEq

/-- Layout of a real Rust type on a 64-bit target: a positive alignment
and `size_of ≤ isize::MAX`, with the alignment itself also representable. -/
def Req.valid (r : Req) : Prop :=
  0 < r.align ∧ r.align ≤ 2 ^ 63 ∧ r.size ≤ 2 ^ 63 - 1

instance (r : Req) : Decidable r.valid := by
  unfold Req.valid; infer_instance

/-- The per-storage fit test of the reuse scan (src/inner.rs lines 74-85,
identically src/lib.rs lines 70-80): padding rounds the buffer's current
end address up to the alignment; the storage fits if
`len + padding + size ≤ capacity`, every sum `usize`-checked (an overflow
skips the storage).  Returns the start index of the value. -/
def fitIn (align size : Nat) (st : Storage) : Option Nat :=
  match checkedAdd st.len ((align - (st.base + st.len) % align) % align) with
  | none => none
  | some vsi =>
    match checkedAdd vsi size with
    | none => none
    | some e => if e ≤ st.capacity then some vsi else none

/-- The `find_map` reuse scan plus the in-place `set_len` /
`resize` to `value_start_index + size`: the first storage (in scan order)
that fits receives the value; the result is the value's absolute address
and the updated storage list.  `Inner::store` scans the `ConcurrentList`
head first (every sequential `try_lock` succeeds); the legacy `Bin::add`
scans its `Vec` front first — both are this function applied to their
respective list orders. -/
def storeInExisting (align size : Nat) : List Storage → Option (Nat × List Storage)
  | [] => none
  | st :: rest =>
    match fitIn align size st with
    | some vsi => some (st.base + vsi, { st with len := vsi + size } :: rest)
    | none => (storeInExisting align size rest).map (fun p => (p.1, st :: p.2))

/-- `Inner` (src/inner.rs): the type-erased arena — a `ConcurrentVec` of
destructor entries and a `ConcurrentList` of storage segments (head = most
recently pushed). -/
structure Inner where
  destructors : ConcurrentVec Entry
  data : List Storage
deriving DecidableEq

/-- `Inner::new`. -/
def Inner.new : Inner := ⟨ConcurrentVec.new, []⟩

/-- `Inner::add_storage` (src/inner.rs lines 116-152): capacity is the max
of `size.checked_add(align)?` (a `None` aborts the call, dropping the
value) and the doubled capacity of the current head segment — saturating at
the `checked_mul` overflow — or 1024 when no segment exists.  The value is
placed at the first aligned index of the fresh buffer and the segment is
pushed at the head of the list. -/
def addStorage (r : Req) (data : List Storage) : Option (Nat × List Storage) :=
  match checkedAdd r.size r.align with
  | none => none
  | some sa =>
    let capacity := max sa (match data with
      | [] => 1024
      | st :: _ => (checkedMul st.capacity 2).getD st.capacity)
    let vsi := (r.align - r.base % r.align) % r.align
    some (r.base + vsi,
      { base := r.base, capacity := capacity, len := vsi + r.size } :: data)

/-- `Inner::store` (src/inner.rs lines 62-111): nonzero-sized values reuse
an existing segment when one fits, otherwise go through `add_storage`;
zero-sized values are forgotten (`mem::forget`) and get the alignment value
itself as a dangling, aligned, non-null sentinel location.  `none` means
the call failed and the value was dropped on the way out. -/
def Inner.store (r : Req) (data : List Storage) : Option (Nat × List Storage) :=
  if 0 < r.size then
    match storeInExisting r.align r.size data with
    | some (loc, data') => some (loc, data')
    | none => addStorage r data
  else
    some (r.align, data)

/-- The outcome of one `add` call: the new arena state and the ids of the
values whose destructor ran during the call itself. -/
structure AddResult where
  state : Inner
  dropped : List Nat
deriving DecidableEq

/-- `Inner::add` (src/inner.rs lines 44-57): store the value, then push the
`(location, drop_in_place::<T>)` entry; when `store` fails the value has
already been dropped inside the call and no entry is pushed. -/
def Inner.add (s : Inner) (r : Req) : AddResult :=
  match Inner.store r s.data with
  | some (loc, data') =>
    { state := { destructors := s.destructors.push ⟨loc, r.id⟩, data := data' },
      dropped := [] }
  | none => { state := s, dropped := [r.id] }

/-- The outcome of one `clear` call: the new arena state and the destructor
entries that were invoked, in invocation order. -/
structure ClearResult where
  state : Inner
  invoked : List Entry
deriving DecidableEq

/-- `Inner::clear` (src/inner.rs lines 155-168): `mem::take` the destructor
vector and invoke every entry in `into_iter` order, then reset every
segment's length to zero (`Vec::clear` keeps the buffer and its
capacity). -/
def Inner.clear (s : Inner) : ClearResult :=
  { state := { destructors := ConcurrentVec.new,
               data := s.data.map (fun st => { st with len := 0 }) },
    invoked := s.destructors.intoIter }

/-- `Inner::size` (src/inner.rs lines 171-173): the sum of the segments'
capacities. -/
def Inner.size (s : Inner) : Nat :=
  (s.data.map (fun st => st.capacity)).sum

/-- Run a sequence of `add` calls, collecting every id dropped during the
calls themselves (i.e. before any `clear`). -/
def Inner.runAdds (s : Inner) : List Req → Inner × List Nat
  | [] => (s, [])
  | r :: rs =>
    let a := s.add r
    let rest := a.state.runAdds rs
    (rest.1, a.dropped ++ rest.2)

/-- A sequential operation on the arena. -/
inductive BinOp where
  | add (r : Req)
  | clear
deriving DecidableEq

/-- Layout validity of an operation's input. -/
def BinOp.valid : BinOp → Prop
  | .add r => r.valid
  | .clear => True

/-- Run a sequence of sequential operations on the arena. -/
def Inner.runOps (s : Inner) : List BinOp → Inner
  | [] => s
  | BinOp.add r :: ops => (s.add r).state.runOps ops
  | BinOp.clear :: ops => s.clear.state.runOps ops

/-- The number of values stored by `add` since the last `clear` of the
sequence (zero initially). -/
def storedCount (ops : List BinOp) : Nat :=
  ops.foldl (fun c op => match op with
    | BinOp.add _ => c + 1
    | BinOp.clear => 0) 0

/-- The legacy `Bin` (src/lib.rs): a `Vec` of destructor entries (push
appends at the back, `drain(..)` yields front to back) and a `Vec` of
storage buffers (push appends at the back, the reuse scan runs front to
back, `last()` is the most recently created buffer). -/
structure LibBin where
  destructors : List Entry
  data : List Storage
deriving DecidableEq

/-- `Bin::new` (src/lib.rs). -/
def LibBin.new : LibBin := ⟨[], []⟩

/-- `Bin::add` (src/lib.rs lines 61-119).  For a nonzero-sized value: reuse
the first buffer that fits, else allocate a fresh buffer of capacity
`max(size.checked_add(align)` (an overflow makes `add` return early,
dropping the value) `, last buffer's LENGTH doubled — saturating — or 1024
when none exists)`, append it, and `resize` the chosen buffer to
`value_start_index + size`.  For a zero-sized value the location is the
alignment value; `value` is never moved in that branch, so it is dropped
when `add` returns — and the destructor entry is pushed regardless. -/
def LibBin.add (b : LibBin) (r : Req) : LibBin × List Nat :=
  if 0 < r.size then
    match storeInExisting r.align r.size b.data with
    | some (loc, data') =>
      ({ destructors := b.destructors ++ [⟨loc, r.id⟩], data := data' }, [])
    | none =>
      match checkedAdd r.size r.align with
      | none => (b, [r.id])
      | some sa =>
        let capacity := max sa (match b.data.getLast? with
          | none => 1024
          | some v => (checkedMul v.len 2).getD v.len)
        let vsi := (r.align - r.base % r.align) % r.align
        ({ destructors := b.destructors ++ [⟨r.base + vsi, r.id⟩],
           data := b.data ++
             [{ base := r.base, capacity := capacity, len := vsi + r.size }] },
         [])
  else
    ({ b with destructors := b.destructors ++ [⟨r.align, r.id⟩] }, [r.id])

/-- `Bin::clear` (src/lib.rs lines 122-135): `drain(..)` the destructor
vector front to back, invoking each entry, then `Vec::clear` every buffer
(length to zero, capacity kept). -/
def LibBin.clear (b : LibBin) : LibBin × List Entry :=
  (⟨[], b.data.map (fun st => { st with len := 0 })⟩, b.destructors)

/-- `Bin::size` (src/lib.rs lines 138-141): the sum of the buffers'
lengths (`Vec::len`, not capacity). -/
def LibBin.size (b : LibBin) : Nat :=
  (b.data.map (fun st => st.len)).sum

/-- Modelled from the spec: the crate-root façade described in spec §4.5
(`Bin` wrapping the arena in a non-blocking single-writer/multi-reader
gate plus an atomic pending-clear flag) is not under src/ — the lib.rs
present is the legacy sequential `Bin`.  The gate's occupancy by other
threads is explicit state: `otherReaders` counts shared holders (adds in
flight elsewhere), `writerHeld` records an exclusive holder (a clear in
progress elsewhere), and `clearNextUse` is the pending-clear flag. -/
structure BinFacade where
  otherReaders : Nat
  writerHeld : Bool
  clearNextUse : Bool
  inner : Inner
deriving DecidableEq

/-- Modelled from the spec (§4.5 `try_clear`): if the pending-clear flag is
set, attempt to take the gate exclusively without blocking — which succeeds
exactly when no other holder exists; on success reset the flag and run the
arena's clear, on failure leave the flag set.  Returns the entries invoked
(empty when the clear did not run). -/
def BinFacade.tryClear (b : BinFacade) : BinFacade × List Entry :=
  if b.clearNextUse && b.otherReaders == 0 && !b.writerHeld then
    let c := b.inner.clear
    ({ b with clearNextUse := false, inner := c.state }, c.invoked)
  else (b, [])

/-- Modelled from the spec (§4.5 `add`): try to take the gate for shared
access without blocking — which fails exactly when a writer (a clear) holds
it; on failure drop the value immediately instead of storing it, on
success forward to the arena's add and release.  Either path then calls
`try_clear`.  Returns the new state, the ids dropped during the call
itself, and the entries invoked by a completed deferred clear. -/
def BinFacade.add (b : BinFacade) (r : Req) : BinFacade × List Nat × List Entry :=
  if b.writerHeld then
    let t := b.tryClear
    (t.1, [r.id], t.2)
  else
    let res := b.inner.add r
    let t := ({ b with inner := res.state } : BinFacade).tryClear
    (t.1, res.dropped, t.2)

/-- Modelled from the spec (§4.5 `clear`): set the pending-clear flag, then
`try_clear`. -/
def BinFacade.clear (b : BinFacade) : BinFacade × List Entry :=
  ({ b with clearNextUse := true } : BinFacade).tryClear

/-- A successful checked add is the plain sum, within `usize` range. -/
theorem checkedAdd_eq (a b c : Nat) (h : checkedAdd a b = some c) :
    a + b = c ∧ a + b ≤ USIZE_MAX := by
  unfold checkedAdd at h
  split at h
  · exact ⟨by injection h, by assumption⟩
  · exact absurd h (by simp)

/-- Rounding an address up by the padding formula lands on a multiple of
the alignment. -/
theorem pad_aligned (a x : Nat) (h : 0 < a) : (x + (a - x % a) % a) % a = 0 := by
  by_cases h0 : x % a = 0
  · rw [h0, Nat.sub_zero, Nat.mod_self, Nat.add_zero]
    exact h0
  · have hlt : x % a < a := Nat.mod_lt _ h
    have h1 : (a - x % a) % a = a - x % a := Nat.mod_eq_of_lt (by omega)
    rw [h1, Nat.add_mod, h1]
    have heq : x % a + (a - x % a) = a := by omega
    rw [heq, Nat.mod_self]

/-- The padding is smaller than the alignment. -/
theorem pad_lt (a x : Nat) (h : 0 < a) : (a - x % a) % a < a :=
  Nat.mod_lt _ h

/-- Pushing onto a `ConcurrentVec` prepends the value to its draining
order. -/
theorem ConcurrentVec.intoIter_push {α : Type} (v : ConcurrentVec α) (x : α) :
    (v.push x).intoIter = x :: v.intoIter := by
  obtain ⟨slices⟩ := v
  cases slices with
  | nil => simp [ConcurrentVec.push, ConcurrentVec.intoIter]
  | cons s rest =>
    by_cases h : s.len = s.capacity <;>
      simp [ConcurrentVec.push, ConcurrentVec.intoIter, ConcurrentSlice.push, h]

/-- A `ConcurrentVec`'s length is the length of its draining order. -/
theorem ConcurrentVec.len_eq {α : Type} (v : ConcurrentVec α) :
    v.len = v.intoIter.length := by
  obtain ⟨slices⟩ := v
  simp [ConcurrentVec.len, ConcurrentVec.intoIter, ConcurrentSlice.len,
    Function.comp_def]

/-- An `add` with a real Rust layout always succeeds: it registers exactly
one destructor entry for the value and runs no destructor itself. -/
theorem Inner.add_valid (s : Inner) (r : Req) (h : r.valid) :
    ∃ loc data', s.add r =
      { state := { destructors := s.destructors.push ⟨loc, r.id⟩, data := data' },
        dropped := [] } := by
  obtain ⟨ha, ha2, hs⟩ := h
  unfold Inner.add Inner.store
  by_cases h0 : 0 < r.size
  · rw [if_pos h0]
    cases hfit : storeInExisting r.align r.size s.data with
    | some p =>
      exact ⟨p.1, p.2, rfl⟩
    | none =>
      unfold addStorage
      have hca : checkedAdd r.size r.align = some (r.size + r.align) := by
        unfold checkedAdd USIZE_MAX
        rw [if_pos (by omega)]
      rw [hca]
      exact ⟨_, _, rfl⟩
  · rw [if_neg h0]
    exact ⟨r.align, s.data, rfl⟩

/-- Running a list of valid `add`s drops nothing during the calls and
piles the new destructor entries, most recent first, onto the draining
order. -/
theorem Inner.runAdds_spec (reqs : List Req) (s : Inner)
    (h : ∀ r ∈ reqs, r.valid) :
    (s.runAdds reqs).2 = [] ∧
      ((s.runAdds reqs).1.destructors.intoIter).map (fun e => e.id) =
        (reqs.map (fun r => r.id)).reverse ++
          (s.destructors.intoIter).map (fun e => e.id) := by
  induction reqs generalizing s with
  | nil => simp [Inner.runAdds]
  | cons r rs ih =>
    obtain ⟨loc, data', heq⟩ := Inner.add_valid s r (h r (by simp))
    have hrs : ∀ x ∈ rs, x.valid := fun x hx => h x (by simp [hx])
    obtain ⟨ih1, ih2⟩ := ih
      (⟨s.destructors.push ⟨loc, r.id⟩, data'⟩ : Inner) hrs
    constructor
    · simp [Inner.runAdds, heq, ih1]
    · simp only [Inner.runAdds, heq]
      rw [ih2]
      simp [ConcurrentVec.intoIter_push]

/-- `runOps` distributes over append. -/
theorem Inner.runOps_append (s : Inner) (l1 l2 : List BinOp) :
    s.runOps (l1 ++ l2) = (s.runOps l1).runOps l2 := by
  induction l1 generalizing s with
  | nil => rfl
  | cons op t ih => cases op <;> simp [Inner.runOps, ih]

/-- The destructor count after a run of valid operations is a fold of
`+1` per add and reset-to-zero per clear over the starting count. -/
theorem Inner.runOps_len (ops : List BinOp) (s : Inner)
    (h : ∀ op ∈ ops, op.valid) :
    (s.runOps ops).destructors.len =
      ops.foldl (fun c op => match op with
        | BinOp.add _ => c + 1
        | BinOp.clear => 0) s.destructors.len := by
  induction ops generalizing s with
  | nil => rfl
  | cons op t ih =>
    cases op with
    | add r =>
      have hv : r.valid := by
        simpa [BinOp.valid] using h (BinOp.add r) (by simp)
      obtain ⟨loc, data', heq⟩ := Inner.add_valid s r hv
      have hlen : (s.add r).state.destructors.len = s.destructors.len + 1 := by
        rw [heq]
        simp [ConcurrentVec.len_eq, ConcurrentVec.intoIter_push]
      simp only [Inner.runOps, List.foldl_cons]
      rw [ih _ (fun x hx => h x (by simp [hx])), hlen]
    | clear =>
      simp only [Inner.runOps, List.foldl_cons]
      rw [ih _ (fun x hx => h x (by simp [hx]))]
      have : (Inner.clear s).state.destructors.len = 0 := rfl
      rw [this]

/-- What a successful reuse scan guarantees: the chosen start index lies
beyond the storage's current length, the placement stays within the
storage's capacity, and the chosen absolute location is aligned. -/
theorem fitIn_spec (a n : Nat) (st : Storage) (vsi : Nat) (ha : 0 < a)
    (h : fitIn a n st = some vsi) :
    st.len ≤ vsi ∧ vsi + n ≤ st.capacity ∧ (st.base + vsi) % a = 0 := by
  unfold fitIn at h
  split at h
  · exact absurd h (by simp)
  · rename_i v h1
    split at h
    · exact absurd h (by simp)
    · rename_i e h2
      split at h
      · rename_i h3
        obtain rfl : v = vsi := by injection h
        obtain ⟨hv, _⟩ := checkedAdd_eq _ _ _ h1
        obtain ⟨he, _⟩ := checkedAdd_eq _ _ _ h2
        refine ⟨by omega, by omega, ?_⟩
        have hpa := pad_aligned a (st.base + st.len) ha
        rw [← hv, ← Nat.add_assoc]
        exact hpa
      · exact absurd h (by simp)

/-- What a successful `storeInExisting` guarantees: some storage of the
list fits, the value is placed there aligned and in bounds, and the list
is updated only at that storage, whose length becomes
`value_start_index + size`. -/
theorem storeInExisting_spec (a n : Nat) (data : List Storage)
    (loc : Nat) (data' : List Storage) (ha : 0 < a)
    (h : storeInExisting a n data = some (loc, data')) :
    ∃ st vsi, st ∈ data ∧ fitIn a n st = some vsi ∧
      loc = st.base + vsi ∧ loc % a = 0 ∧ st.len ≤ vsi ∧
      vsi + n ≤ st.capacity ∧ ({ st with len := vsi + n } : Storage) ∈ data' := by
  induction data generalizing loc data' with
  | nil => exact absurd h (by simp [storeInExisting])
  | cons st rest ih =>
    unfold storeInExisting at h
    cases hfit : fitIn a n st with
    | some vsi =>
      rw [hfit] at h
      simp only [Option.some.injEq, Prod.mk.injEq] at h
      obtain ⟨h1, h2⟩ := h
      obtain ⟨hle, hcap, hal⟩ := fitIn_spec a n st vsi ha hfit
      exact ⟨st, vsi, by simp, hfit, h1.symm, h1 ▸ hal, hle, hcap,
        by rw [← h2]; simp⟩
    | none =>
      rw [hfit] at h
      cases hrest : storeInExisting a n rest with
      | none => rw [hrest] at h; exact absurd h (by simp)
      | some p =>
        rw [hrest] at h
        simp only [Option.map_some', Option.some.injEq, Prod.mk.injEq] at h
        obtain ⟨h1, h2⟩ := h
        obtain ⟨st', vsi, hmem, hf, hl1, hl2, hl3, hl4, hl5⟩ :=
          ih p.1 p.2 hrest
        exact ⟨st', vsi, by simp [hmem], hf, h1 ▸ hl1, h1 ▸ hl2, hl3, hl4,
          by rw [← h2]; simp [hl5]⟩

instance (op : BinOp) : Decidable op.valid := by
  cases op <;> unfold BinOp.valid <;> infer_instance

/-- Resetting every segment's length to zero leaves the capacities
untouched. -/
theorem map_capacity_reset (l : List Storage) :
    (l.map (fun st => { st with len := 0 })).map (fun st => st.capacity) =
      l.map (fun st => st.capacity) := by
  induction l with
  | nil => rfl
  | cons st t ih => simp only [List.map_cons, ih]

/-- Resetting every segment's length to zero leaves the sum of the
capacities untouched. -/
theorem sum_capacity_reset (l : List Storage) :
    ((l.map (fun st => { st with len := 0 })).map (fun st => st.capacity)).sum =
      (l.map (fun st => st.capacity)).sum := by
  induction l with
  | nil => rfl
  | cons st t ih => simp only [List.map_cons, List.sum_cons, ih]

/-- After resetting every segment's length to zero, the lengths sum to
zero. -/
theorem sum_len_reset (l : List Storage) :
    ((l.map (fun st => { st with len := 0 })).map (fun st => st.len)).sum = 0 := by
  induction l with
  | nil => rfl
  | cons st t ih => simpa using ih

/-- C1: on the current arena (`Inner`), any sequence of N valid `add`
calls followed by one `clear` runs no destructor before the `clear` and
exactly N destructors at the `clear`.  The legacy `Bin` of src/lib.rs
violates this for zero-sized values: a single `add` of a zero-sized value
(id 7) already drops it during the `add` call, and `clear` then invokes
its recorded destructor again — two invocations for N = 1, one of them
before the `clear`. -/
theorem C1_destructor_counts :
    (∀ reqs : List Req, (∀ r ∈ reqs, r.valid) →
      (Inner.new.runAdds reqs).2 = [] ∧
        ((Inner.new.runAdds reqs).1.clear).invoked.length = reqs.length) ∧
      ((LibBin.new.add ⟨0, 1, 0, 7⟩).2 = [7] ∧
        ((LibBin.new.add ⟨0, 1, 0, 7⟩).1.clear).2.length = 1) := by
  refine ⟨fun reqs h => ?_, by decide, by decide⟩
  obtain ⟨h1, h2⟩ := Inner.runAdds_spec reqs Inner.new h
  refine ⟨h1, ?_⟩
  have hnil : (Inner.new.destructors.intoIter : List Entry) = [] := rfl
  rw [hnil] at h2
  have hlen := congrArg List.length h2
  simp only [List.map_nil, List.append_nil, List.length_map,
    List.length_reverse] at hlen
  exact hlen

/-- C1 witness: two valid adds then a clear on the current arena: nothing
dropped during the adds, two destructors invoked at the clear. -/
theorem C1_witness :
    (Inner.new.runAdds [⟨1, 1, 0, 1⟩, ⟨0, 4, 0, 2⟩]).2 = [] ∧
      ((Inner.new.runAdds [⟨1, 1, 0, 1⟩, ⟨0, 4, 0, 2⟩]).1.clear).invoked.length = 2 :=
  C1_destructor_counts.1 [⟨1, 1, 0, 1⟩, ⟨0, 4, 0, 2⟩] (by decide)

/-- C2 as amended: on the current arena, `clear` invokes the destructors
in most-recently-added-first order. -/
theorem C2_lifo_order (reqs : List Req) (h : ∀ r ∈ reqs, r.valid) :
    ((Inner.new.runAdds reqs).1.clear).invoked.map (fun e => e.id) =
      (reqs.map (fun r => r.id)).reverse := by
  obtain ⟨_, h2⟩ := Inner.runAdds_spec reqs Inner.new h
  have hnil : (Inner.new.destructors.intoIter : List Entry) = [] := rfl
  rw [hnil] at h2
  simp only [List.map_nil, List.append_nil] at h2
  exact h2

/-- C2 counterexample: the legacy `Bin::clear` of src/lib.rs drains its
destructor `Vec` front to back, so two sequential adds of values 1 and 2
run the destructors in order [1, 2], not the claimed [2, 1]. -/
theorem C2_counterexample :
    ((((LibBin.new.add ⟨1, 1, 0, 1⟩).1.add ⟨1, 1, 0, 2⟩).1.clear).2.map
        (fun e => e.id) = [1, 2]) ∧
      ([1, 2] : List Nat) ≠ [2, 1] := by
  decide

/-- C2 witness: three valid adds on the current arena are cleared in
reverse order. -/
theorem C2_witness :
    ((Inner.new.runAdds [⟨1, 1, 0, 1⟩, ⟨2, 2, 0, 2⟩, ⟨0, 8, 0, 3⟩]).1.clear).invoked.map
        (fun e => e.id) = [3, 2, 1] :=
  C2_lifo_order [⟨1, 1, 0, 1⟩, ⟨2, 2, 0, 2⟩, ⟨0, 8, 0, 3⟩] (by decide)

/-- C3 as amended: `Inner::size` (the sum of segment capacities) is
unchanged by `clear`; the legacy `Bin::size` of src/lib.rs instead sums
the segments' lengths, so a `clear` resets it to zero. -/
theorem C3_size_across_clear :
    (∀ s : Inner, (s.clear).state.size = s.size) ∧
      ∀ b : LibBin, (b.clear).1.size = 0 := by
  constructor
  · intro s
    exact sum_capacity_reset s.data
  · intro b
    exact sum_len_reset b.data

/-- C3 counterexample: on the legacy `Bin` of src/lib.rs, one stored
one-byte value makes `size()` report 1, and immediately after `clear()`
it reports 0. -/
theorem C3_counterexample :
    ¬ (((LibBin.new.add ⟨1, 1, 0, 1⟩).1.clear).1.size =
        (LibBin.new.add ⟨1, 1, 0, 1⟩).1.size) := by
  decide

/-- C4: when the `size + align` computation of a fresh segment overflows
`usize`, the `add` call registers nothing and changes nothing, and the
value is dropped — its destructor runs exactly once, during the call
itself (the value travels into `Inner::add_storage` by move and is dropped
when the `checked_add` fails). -/
theorem C4_overflow_drops_immediately (s : Inner) (r : Req)
    (h0 : 0 < r.size)
    (hfit : storeInExisting r.align r.size s.data = none)
    (hovf : checkedAdd r.size r.align = none) :
    s.add r = ⟨s, [r.id]⟩ := by
  unfold Inner.add Inner.store addStorage
  rw [if_pos h0, hfit, hovf]

/-- C4 witness: adding a value of size `usize::MAX` and alignment 1 to a
fresh arena leaves the arena untouched and drops the value at once. -/
theorem C4_witness :
    Inner.new.add ⟨USIZE_MAX, 1, 0, 9⟩ = ⟨Inner.new, [9]⟩ :=
  C4_overflow_drops_immediately Inner.new ⟨USIZE_MAX, 1, 0, 9⟩
    (by decide) (by decide) (by decide)

/-- C5: on the current arena a zero-sized `add` consumes no byte storage,
records the alignment value as the (never dereferenced) location, still
registers a destructor entry, and the next `clear` invokes that entry —
exactly once, first in the draining order.  The legacy `Bin` of src/lib.rs
violates the exactly-once part: it never forgets a zero-sized value, so
the value (id 7) is dropped when `add` returns and its registered
destructor fires again at `clear`. -/
theorem C5_zero_sized :
    (∀ (s : Inner) (r : Req), r.size = 0 →
      s.add r = { state := { destructors := s.destructors.push ⟨r.align, r.id⟩,
                             data := s.data },
                  dropped := [] } ∧
        ((s.add r).state.clear).invoked = ⟨r.align, r.id⟩ :: (s.clear).invoked) ∧
      ((LibBin.new.add ⟨0, 1, 0, 7⟩).2 = [7] ∧
        ((LibBin.new.add ⟨0, 1, 0, 7⟩).1.clear).2 = [⟨1, 7⟩]) := by
  refine ⟨fun s r h => ?_, by decide, by decide⟩
  have hadd : s.add r =
      ⟨⟨s.destructors.push ⟨r.align, r.id⟩, s.data⟩, ([] : List Nat)⟩ := by
    unfold Inner.add Inner.store
    rw [if_neg (by omega)]
  refine ⟨hadd, ?_⟩
  rw [hadd]
  simp [Inner.clear, ConcurrentVec.intoIter_push]

/-- C5 witness: a zero-sized add (alignment 2, id 5) on a fresh arena
registers one entry at location 2, drops nothing, and the next clear
invokes exactly that entry. -/
theorem C5_witness :
    Inner.new.add ⟨0, 2, 0, 5⟩ =
        { state := { destructors := Inner.new.destructors.push ⟨2, 5⟩,
                     data := Inner.new.data },
          dropped := [] } ∧
      ((Inner.new.add ⟨0, 2, 0, 5⟩).state.clear).invoked =
        ⟨2, 5⟩ :: (Inner.new.clear).invoked :=
  C5_zero_sized.1 Inner.new ⟨0, 2, 0, 5⟩ rfl

/-- C6 as amended: when `Inner::add` finds no reusable segment and
`size + align` does not overflow, the fresh segment is pushed at the head
with capacity `max(size + align, d)` where `d` is 1024 when no segment
exists and otherwise the head segment's doubled capacity — saturating to
the undoubled capacity when the doubling overflows `usize`; the capacity
is at least `size + align`, so the one aligned placement performed into it
stays within the segment. -/
theorem C6_new_segment_capacity (s : Inner) (r : Req)
    (ha : 0 < r.align) (h0 : 0 < r.size)
    (hfit : storeInExisting r.align r.size s.data = none)
    (hsa : checkedAdd r.size r.align = some (r.size + r.align)) :
    ∃ newSt, (s.add r).state.data = newSt :: s.data ∧
      newSt.capacity = max (r.size + r.align)
        (match s.data with
          | [] => 1024
          | st :: _ => (checkedMul st.capacity 2).getD st.capacity) ∧
      r.size + r.align ≤ newSt.capacity ∧ newSt.len ≤ newSt.capacity := by
  unfold Inner.add Inner.store addStorage
  rw [if_pos h0, hfit, hsa]
  refine ⟨_, rfl, rfl, le_max_left _ _, ?_⟩
  have hv := pad_lt r.align r.base ha
  exact le_trans (by omega : (r.align - r.base % r.align) % r.align + r.size ≤
    r.size + r.align) (le_max_left _ _)

/-- C6 counterexample: the claimed formula fails on both generations of
the code.  Legacy `Bin` (src/lib.rs): after storing one byte in a fresh
1024-byte buffer and clearing, an `add` of 2000 bytes allocates a buffer
of capacity 2001 = size + align (the doubling term uses the last buffer's
LENGTH, zero after the clear), not max(2001, 2 × 1024) = 2048.  Current
arena (src/inner.rs): after a segment of capacity 2^63 exists, a no-fit
add of 2^63 - 1 bytes allocates capacity 2^63 (the doubling of 2^63
overflows and saturates to the undoubled capacity), not
max(2^63, 2 × 2^63) = 2^64. -/
theorem C6_counterexample :
    (((((LibBin.new.add ⟨1, 1, 0, 1⟩).1.clear).1.add ⟨2000, 1, 0, 2⟩).1.data.map
        (fun st => st.capacity)) = [1024, 2001] ∧
      (2001 : Nat) ≠ max (2000 + 1) (2 * 1024)) ∧
      ((((Inner.new.add ⟨2 ^ 63 - 1, 1, 0, 1⟩).state.add
            ⟨2 ^ 63 - 1, 1, 0, 2⟩).state.data.map (fun st => st.capacity)) =
          [2 ^ 63, 2 ^ 63] ∧
        (2 ^ 63 : Nat) ≠ max (2 ^ 63) (2 * 2 ^ 63)) := by
  refine ⟨⟨by decide, by decide⟩, ⟨?_, by decide⟩⟩
  decide

/-- C6 witness: on a fresh arena, an add of 4 bytes aligned to 4 creates
a head segment of capacity max(8, 1024) = 1024 with its 4 bytes in
bounds. -/
theorem C6_witness :
    ∃ newSt, (Inner.new.add ⟨4, 4, 0, 1⟩).state.data = newSt :: Inner.new.data ∧
      newSt.capacity = max (4 + 4)
        (match Inner.new.data with
          | [] => 1024
          | st :: _ => (checkedMul st.capacity 2).getD st.capacity) ∧
      4 + 4 ≤ newSt.capacity ∧ newSt.len ≤ newSt.capacity :=
  C6_new_segment_capacity Inner.new ⟨4, 4, 0, 1⟩ (by decide) (by decide)
    (by decide) (by decide)

/-- C7: after any sequence of valid sequential operations, the number of
registered destructor entries equals the number of `add`s since the last
`clear`; and a final `clear` leaves the destructor vector empty and every
segment with length 0 but its capacity unchanged. -/
theorem C7_state_invariant (ops : List BinOp) (h : ∀ op ∈ ops, op.valid) :
    (Inner.new.runOps ops).destructors.len = storedCount ops ∧
      (Inner.new.runOps (ops ++ [BinOp.clear])).destructors = ConcurrentVec.new ∧
      (∀ st ∈ (Inner.new.runOps (ops ++ [BinOp.clear])).data, st.len = 0) ∧
      (Inner.new.runOps (ops ++ [BinOp.clear])).data.map (fun st => st.capacity) =
        (Inner.new.runOps ops).data.map (fun st => st.capacity) := by
  have h1 := Inner.runOps_len ops Inner.new h
  refine ⟨h1, ?_, ?_, ?_⟩ <;> rw [Inner.runOps_append]
  · rfl
  · intro st hst
    have : (Inner.new.runOps ops).runOps [BinOp.clear] =
        ((Inner.new.runOps ops).clear).state := rfl
    rw [this] at hst
    simp only [Inner.clear, List.mem_map] at hst
    obtain ⟨st0, _, rfl⟩ := hst
    rfl
  · exact map_capacity_reset _

/-- C7 witness: the run add, add, clear, add has one live destructor
entry; appending a final clear empties the entries and zeroes the segment
lengths while keeping the capacities. -/
theorem C7_witness :
    (Inner.new.runOps [BinOp.add ⟨1, 1, 0, 1⟩, BinOp.add ⟨0, 2, 0, 2⟩,
        BinOp.clear, BinOp.add ⟨2, 2, 4, 3⟩]).destructors.len =
      storedCount [BinOp.add ⟨1, 1, 0, 1⟩, BinOp.add ⟨0, 2, 0, 2⟩,
        BinOp.clear, BinOp.add ⟨2, 2, 4, 3⟩] ∧
      (Inner.new.runOps ([BinOp.add ⟨1, 1, 0, 1⟩, BinOp.add ⟨0, 2, 0, 2⟩,
          BinOp.clear, BinOp.add ⟨2, 2, 4, 3⟩] ++ [BinOp.clear])).destructors =
        ConcurrentVec.new ∧
      (∀ st ∈ (Inner.new.runOps ([BinOp.add ⟨1, 1, 0, 1⟩, BinOp.add ⟨0, 2, 0, 2⟩,
          BinOp.clear, BinOp.add ⟨2, 2, 4, 3⟩] ++ [BinOp.clear])).data,
        st.len = 0) ∧
      (Inner.new.runOps ([BinOp.add ⟨1, 1, 0, 1⟩, BinOp.add ⟨0, 2, 0, 2⟩,
          BinOp.clear, BinOp.add ⟨2, 2, 4, 3⟩] ++ [BinOp.clear])).data.map
          (fun st => st.capacity) =
        (Inner.new.runOps [BinOp.add ⟨1, 1, 0, 1⟩, BinOp.add ⟨0, 2, 0, 2⟩,
          BinOp.clear, BinOp.add ⟨2, 2, 4, 3⟩]).data.map (fun st => st.capacity) :=
  C7_state_invariant [BinOp.add ⟨1, 1, 0, 1⟩, BinOp.add ⟨0, 2, 0, 2⟩,
    BinOp.clear, BinOp.add ⟨2, 2, 4, 3⟩] (by decide)

/-- C8: a slice filled to exactly its capacity rejects the next push,
returning the value untouched and leaving the slice (hence its length)
unchanged; the owning `ConcurrentVec` then links a fresh slice of doubled
capacity at the front, in which the retried push lands (at slot 0); with
no slice at all the fresh slice has the default capacity 4. -/
theorem C8_full_push_rejected {α : Type} (s : ConcurrentSlice α) (x : α)
    (rest : List (ConcurrentSlice α))
    (hfull : s.len = s.capacity) (hnov : s.capacity * 2 ≤ USIZE_MAX) :
    s.push x = (some x, s) ∧
      (ConcurrentVec.push ⟨s :: rest⟩ x).slices =
        ⟨s.capacity * 2, [x]⟩ :: s :: rest ∧
      (ConcurrentVec.push (⟨[]⟩ : ConcurrentVec α) x).slices = [⟨4, [x]⟩] := by
  have h1 : s.push x = (some x, s) := by
    unfold ConcurrentSlice.push
    rw [if_pos hfull]
  refine ⟨h1, ?_, rfl⟩
  simp [ConcurrentVec.push, h1, checkedMul, hnov]

/-- C8 witness: a capacity-4 slice holding 4 values rejects value 99
untouched, and the owning vector grows a capacity-8 slice at the front
holding the retried 99. -/
theorem C8_witness :
    (⟨4, [10, 11, 12, 13]⟩ : ConcurrentSlice Nat).push 99 =
        (some 99, ⟨4, [10, 11, 12, 13]⟩) ∧
      (ConcurrentVec.push ⟨[⟨4, [10, 11, 12, 13]⟩]⟩ 99).slices =
        ⟨4 * 2, [99]⟩ :: (⟨4, [10, 11, 12, 13]⟩ : ConcurrentSlice Nat) :: [] ∧
      (ConcurrentVec.push (⟨[]⟩ : ConcurrentVec Nat) 99).slices = [⟨4, [99]⟩] :=
  C8_full_push_rejected ⟨4, [10, 11, 12, 13]⟩ 99 [] (by decide) (by decide)

/-- C9, on the spec-modelled façade: (1) with a clear holding the gate,
`add` returns at once, dropping the value immediately, storing nothing and
changing no state; (2) with adds holding the gate, `clear` only sets the
pending-clear flag, clears nothing and changes nothing else; (3) and (4) a
later `clear` or `add` finding the gate free and the flag set completes
the deferred clear, resetting the flag and emptying the destructor
vector. -/
theorem C9_facade_nonblocking :
    (∀ (b : BinFacade) (r : Req), b.writerHeld = true →
      b.add r = (b, [r.id], [])) ∧
    (∀ b : BinFacade, 0 < b.otherReaders →
      (b.clear).1 = { b with clearNextUse := true } ∧ (b.clear).2 = []) ∧
    (∀ b : BinFacade, b.otherReaders = 0 → b.writerHeld = false →
      b.clearNextUse = true →
      (b.clear).1.clearNextUse = false ∧
        (b.clear).1.inner.destructors = ConcurrentVec.new) ∧
    (∀ (b : BinFacade) (r : Req), b.otherReaders = 0 → b.writerHeld = false →
      b.clearNextUse = true →
      (b.add r).1.clearNextUse = false ∧
        (b.add r).1.inner.destructors = ConcurrentVec.new) := by
  refine ⟨?_, ?_, ?_, ?_⟩
  · intro b r hw
    simp [BinFacade.add, BinFacade.tryClear, hw]
  · intro b hr
    have h0 : (b.otherReaders == 0) = false := by
      simp [Nat.pos_iff_ne_zero.mp hr]
    constructor <;> simp [BinFacade.clear, BinFacade.tryClear, h0]
  · intro b h1 h2 h3
    constructor <;>
      simp [BinFacade.clear, BinFacade.tryClear, h1, h2, Inner.clear]
  · intro b r h1 h2 h3
    constructor <;>
      simp [BinFacade.add, BinFacade.tryClear, h1, h2, h3, Inner.clear]

/-- C9 witness: with a writer holding the gate, an add on an otherwise
fresh façade drops value 4 at once and changes nothing; with the gate free
and the flag pending, an add completes the deferred clear. -/
theorem C9_witness :
    (⟨0, true, false, Inner.new⟩ : BinFacade).add ⟨1, 1, 0, 4⟩ =
        (⟨0, true, false, Inner.new⟩, [4], []) ∧
      ((⟨0, false, true, Inner.new⟩ : BinFacade).add ⟨1, 1, 0, 4⟩).1.clearNextUse =
          false ∧
        ((⟨0, false, true, Inner.new⟩ :
            BinFacade).add ⟨1, 1, 0, 4⟩).1.inner.destructors = ConcurrentVec.new :=
  ⟨C9_facade_nonblocking.1 ⟨0, true, false, Inner.new⟩ ⟨1, 1, 0, 4⟩ rfl,
    C9_facade_nonblocking.2.2.2 ⟨0, false, true, Inner.new⟩ ⟨1, 1, 0, 4⟩
      rfl rfl rfl⟩

/-- C10: whenever `store` places a nonzero-sized value — whether by
reusing a fitting segment or through a fresh one — the chosen location is
a multiple of the alignment, and the updated data contains a segment
holding the value at an offset with `offset + size ≤ capacity` whose new
length is exactly `offset + size` (so the resized length minus the offset
is the size): both assertions of `Bin::add` hold and the placement write
stays inside the segment's buffer. -/
theorem C10_placement_in_bounds (s : Inner) (r : Req)
    (ha : 0 < r.align) (h0 : 0 < r.size) (loc : Nat) (data' : List Storage)
    (h : Inner.store r s.data = some (loc, data')) :
    loc % r.align = 0 ∧
      ∃ st vsi, st ∈ data' ∧ loc = st.base + vsi ∧
        st.len = vsi + r.size ∧ vsi + r.size ≤ st.capacity := by
  unfold Inner.store at h
  rw [if_pos h0] at h
  cases hfit : storeInExisting r.align r.size s.data with
  | some p =>
    rw [hfit] at h
    obtain ⟨st, vsi, hmem, hf, hl1, hl2, hl3, hl4, hl5⟩ :=
      storeInExisting_spec r.align r.size s.data p.1 p.2 ha hfit
    simp only [Option.some.injEq, Prod.mk.injEq] at h
    obtain ⟨hp1, hp2⟩ := h
    subst hp1
    subst hp2
    exact ⟨hl2, { st with len := vsi + r.size }, vsi, hl5, hl1, rfl, hl4⟩
  | none =>
    rw [hfit] at h
    unfold addStorage at h
    cases hsa : checkedAdd r.size r.align with
    | none => rw [hsa] at h; exact absurd h (by simp)
    | some sa =>
      rw [hsa] at h
      simp only [Option.some.injEq, Prod.mk.injEq] at h
      obtain ⟨hp1, hp2⟩ := h
      obtain ⟨hsum, _⟩ := checkedAdd_eq _ _ _ hsa
      subst hp1
      subst hp2
      refine ⟨pad_aligned r.align r.base ha,
        ⟨r.base,
          max sa (match s.data with
            | [] => 1024
            | st :: _ => (checkedMul st.capacity 2).getD st.capacity),
          (r.align - r.base % r.align) % r.align + r.size⟩,
        (r.align - r.base % r.align) % r.align, by simp, rfl, rfl, ?_⟩
      have hv := pad_lt r.align r.base ha
      exact le_trans (by omega : (r.align - r.base % r.align) % r.align + r.size ≤
        sa) (le_max_left _ _)

/-- C10 witness: storing a 4-byte, 4-aligned value in a fresh arena lands
at the aligned location 0 of a fresh 1024-byte segment, in bounds. -/
theorem C10_witness :
    (0 : Nat) % 4 = 0 ∧
      ∃ st vsi,
        st ∈ [({ base := 0, capacity := 1024, len := 4 } : Storage)] ∧
        (0 : Nat) = st.base + vsi ∧ st.len = vsi + 4 ∧ vsi + 4 ≤ st.capacity :=
  C10_placement_in_bounds Inner.new ⟨4, 4, 0, 1⟩ (by decide) (by decide)
    0 [{ base := 0, capacity := 1024, len := 4 }] (by decide)

end DropBin
